import Mathlib

set_option linter.unusedVariables false

/-!
# ETISS LLVM JIT (JITImpl/LLVM): translate, library loading, symbol lookup

Shallow embedding of `LLVMJIT.cpp` (classes `OrcJit` and `etiss::LLVMJIT`).

* Machine state is passed explicitly: `OrcJit` holds what the main JITDylib knows
  (symbols defined by added modules, the generator chain), `LLVMJIT` adds `loadedLibs_`.
* Everything the code obtains from LLVM, clang, the file system or the running process is a
  field of `Env`, so every theorem holds for all behaviours of those collaborators.
* `llvm::cantFail` on an error value does not return; calls that can reach it produce an
  `Outcome`, whose `aborted` case stands for that.
* Calls of `sys::fs::exists` and `addGenerator` made inside `loadLib` are recorded as `Event`s.
-/

namespace etiss

/-- Outcome of a call that may hand an error value to `llvm::cantFail`: either the call
returns a value, or `cantFail` stops the process and nothing is returned. -/
inductive Outcome (α : Type) where
  | returned (value : α) : Outcome α
  | aborted : Outcome α
  deriving DecidableEq

/-! ## `std::set<std::string>` -/

/-- Lexicographic comparison of character sequences, the ordering `std::less<std::string>`
that `std::set<std::string>` iterates by. -/
def lexLess : List Char → List Char → Bool
  | _, [] => false
  | [], _ :: _ => true
  | a :: as, b :: bs =>
    if a.toNat < b.toNat then true
    else if a.toNat = b.toNat then lexLess as bs
    else false

/-- The comparator `a < b` of `std::string`. -/
def strLess (a b : String) : Bool := lexLess a.data b.data

/-- Insertion of one key into the iteration sequence of a `std::set<std::string>`:
the key goes before the first larger element and is dropped when already present. -/
def setInsert (x : String) : List String → List String
  | [] => [x]
  | y :: ys =>
    if strLess x y then x :: y :: ys
    else if strLess y x then y :: setInsert x ys
    else y :: ys

theorem lexLess_trans : ∀ (a b c : List Char),
    lexLess a b = true → lexLess b c = true → lexLess a c = true
  | _, [], _, h, _ => by simp [lexLess] at h
  | _, _ :: _, [], _, h => by simp [lexLess] at h
  | [], _ :: _, _ :: _, _, _ => by simp [lexLess]
  | x :: xs, y :: ys, z :: zs, h1, h2 => by
    simp only [lexLess] at h1 h2 ⊢
    have ih := lexLess_trans xs ys zs
    split_ifs at h1 h2 ⊢ <;> first | rfl | omega | (exact ih h1 h2)

theorem lexLess_total : ∀ (a b : List Char),
    lexLess a b = false → lexLess b a = false → a = b
  | [], [], _, _ => rfl
  | [], _ :: _, h, _ => by simp [lexLess] at h
  | _ :: _, [], _, h => by simp [lexLess] at h
  | x :: xs, y :: ys, h1, h2 => by
    simp only [lexLess] at h1 h2
    have ih := lexLess_total xs ys
    split_ifs at h1 h2 <;> first | omega | skip
    have hn : x.toNat = y.toNat := by omega
    have hxy : x = y := by rw [← Char.ofNat_toNat x, ← Char.ofNat_toNat y, hn]
    rw [hxy, ih h1 h2]

theorem strLess_trans {a b c : String} (h1 : strLess a b = true) (h2 : strLess b c = true) :
    strLess a c = true := lexLess_trans _ _ _ h1 h2

theorem strLess_total {a b : String} (h1 : strLess a b = false) (h2 : strLess b a = false) :
    a = b := by
  cases a; cases b
  simp only [strLess] at h1 h2
  rw [lexLess_total _ _ h1 h2]

/-- A list is a possible iteration sequence of a `std::set<std::string>`: strictly
ascending in `std::less<std::string>`. -/
def Ascending (l : List String) : Prop := l.Pairwise (fun a b => strLess a b = true)

theorem setInsert_mem (x z : String) (l : List String) :
    z ∈ setInsert x l ↔ z = x ∨ z ∈ l := by
  induction l with
  | nil => simp [setInsert]
  | cons y ys ih =>
    simp only [setInsert]
    split_ifs with h1 h2
    · simp
    · simp only [List.mem_cons, ih]; tauto
    · have hxy : x = y := strLess_total (by simpa using h1) (by simpa using h2)
      subst hxy; simp

theorem setInsert_ascending (x : String) (l : List String) (h : Ascending l) :
    Ascending (setInsert x l) := by
  induction l with
  | nil => simp [setInsert, Ascending]
  | cons y ys ih =>
    unfold Ascending at h ih ⊢
    rw [List.pairwise_cons] at h
    simp only [setInsert]
    split_ifs with h1 h2
    · refine List.pairwise_cons.2 ⟨?_, List.pairwise_cons.2 h⟩
      intro z hz
      rcases List.mem_cons.1 hz with rfl | hz
      · exact h1
      · exact strLess_trans h1 (h.1 z hz)
    · refine List.pairwise_cons.2 ⟨?_, ih h.2⟩
      intro z hz
      rcases (setInsert_mem x z ys).1 hz with rfl | hz
      · exact h2
      · exact h.1 z hz
    · exact List.pairwise_cons.2 h

/-- A `std::set<std::string>`, given by the sequence its iteration visits. -/
structure StdSet where
  elems : List String
  ascending : Ascending elems

/-- The empty set. -/
def StdSet.empty : StdSet := ⟨[], List.Pairwise.nil⟩

/-- Member function `insert` of `std::set`. -/
def StdSet.insert (s : StdSet) (x : String) : StdSet :=
  ⟨setInsert x s.elems, setInsert_ascending x s.elems s.ascending⟩

/-- The set a caller builds from the keys `l`, inserted in the order written. -/
def StdSet.ofList (l : List String) : StdSet := l.foldl StdSet.insert StdSet.empty

/-! ## Collaborators outside the repository -/

/-- A search generator attached to the main JITDylib: the one made by
`DynamicLibrarySearchGenerator::GetForCurrentProcess`, or one made by
`DynamicLibrarySearchGenerator::Load` for a shared-library file. -/
inductive Generator where
  | currentProcess : Generator
  | library (fullPath : String) : Generator
  deriving DecidableEq

/-- An IR module as the JIT session sees it once added: the linker names it defines, each
with the address it is materialised at. -/
abbrev IRModule := List (String × Nat)

/-- What `LLVMJIT.cpp` calls but does not define. All fields are parameters of the model.

* `jitFiles`: value of `etiss::jitFiles()`.
* `pathAppend libPath file`: the path `sys::path::append` builds from the two components.
* `fsExists`: `sys::fs::exists`.
* `Load fullPath`: whether `DynamicLibrarySearchGenerator::Load` yields a generator
  (`false`: it yields an error, which `cantFail` turns into an abort).
* `tryToGenerate g n`: the address generator `g` supplies for linker name `n`, if any.
* `Mangle`: the `MangleAndInterner` of the session.
* `CreateFromArgs`: whether `CompilerInvocation::CreateFromArgs` accepts the arguments.
* `ExecuteAction code args`: the module `EmitLLVMOnlyAction` produces, `none` when
  `CI.ExecuteAction` fails.
* `layerAdd symbols m`: whether `OptimizeLayer.add` succeeds for module `m` on a JITDylib
  that already defines `symbols` (`false`: an error, which `cantFail` turns into an abort). -/
structure Env where
  jitFiles : String
  pathAppend : String → String → String
  fsExists : String → Bool
  Load : String → Bool
  tryToGenerate : Generator → String → Option Nat
  Mangle : String → String
  CreateFromArgs : List String → Bool
  ExecuteAction : String → List String → Option IRModule
  layerAdd : List (String × Nat) → IRModule → Bool

/-- Observable steps of the library loader: a `sys::fs::exists` call and an
`addGenerator` call, each tagged with the `libName` argument of the `loadLib` call
that made it. -/
inductive Event where
  | probe (libName fullPath : String) : Event
  | registered (libName fullPath : String) : Event
  deriving DecidableEq

/-- The library name an event belongs to. -/
def Event.libName : Event → String
  | Event.probe n _ => n
  | Event.registered n _ => n

/-- The library names of the `addGenerator` calls in a sequence of events, in order. -/
def registeredNames : List Event → List String
  | [] => []
  | Event.probe _ _ :: evs => registeredNames evs
  | Event.registered n _ :: evs => n :: registeredNames evs

/-- The generators added by the `addGenerator` calls in a sequence of events, in order. -/
def registeredGenerators : List Event → List Generator
  | [] => []
  | Event.probe _ _ :: evs => registeredGenerators evs
  | Event.registered _ fullPath :: evs => Generator.library fullPath :: registeredGenerators evs

/-- Whether the generator was made from a library file. -/
def Generator.isLibrary : Generator → Bool
  | Generator.currentProcess => false
  | Generator.library _ => true

/-! ## class OrcJit -/

/-- The part of `OrcJit` the public operations depend on: the symbols the main JITDylib
defines through added modules, and its generators in the order they were added. -/
structure OrcJit where
  symbols : List (String × Nat)
  generators : List Generator
  deriving DecidableEq

/-- Modelled from the spec: `JITDylib::addGenerator` (LLVM, not in the repository) "adds one
more generator to the search chain; generators are never removed", and "the API appends". -/
def addGenerator (generators : List Generator) (g : Generator) : List Generator :=
  generators ++ [g]

/-- Modelled from the spec: the generator part of `ExecutionSession::lookup` (LLVM, not in
the repository): generators are "consulted in registration order when a name is not found in
the currently-linked code", and the first one that resolves the name gives the address. -/
def searchGenerators (env : Env) (linkerName : String) : List Generator → Option Nat
  | [] => none
  | g :: gs =>
    match env.tryToGenerate g linkerName with
    | some addr => some addr
    | none => searchGenerators env linkerName gs

/-- The session `OrcJit::Create` builds through the constructor `OrcJit::OrcJit`, in the
case that host detection succeeds: a bare main JITDylib whose only generator is the one for
the current process. -/
def OrcJit.Create : OrcJit :=
  { symbols := [], generators := addGenerator [] Generator.currentProcess }

/-- Method `OrcJit::addModule`: `cantFail(OptimizeLayer.add(MainJITDylib, ...))`.
Modelled from the spec, for the effect of a successful `add` (LLVM, not in the repository):
it "registers resulting symbols into the Execution Session's default search context". -/
def OrcJit.addModule (env : Env) (jit : OrcJit) (M : IRModule) : Outcome OrcJit :=
  if env.layerAdd jit.symbols M then
    Outcome.returned { jit with symbols := jit.symbols ++ M }
  else Outcome.aborted

/-- Method `OrcJit::lookup`: `ES->lookup({ &MainJITDylib }, Mangle(Name.str()))`;
`none` is the error value of the `llvm::Expected`. That symbols of added modules are found
before any generator is asked follows the spec's words on generators (consulted "when a name
is not found in the currently-linked code"). -/
def OrcJit.lookup (env : Env) (jit : OrcJit) (Name : String) : Option Nat :=
  match jit.symbols.lookup (env.Mangle Name) with
  | some addr => some addr
  | none => searchGenerators env (env.Mangle Name) jit.generators

/-- The path `loadLib` probes for library `libName` under directory `libPath`:
`sys::path::append(fullPath, libPath, "lib" + libName + ".so")`. -/
def libFullPath (env : Env) (libPath libName : String) : String :=
  env.pathAppend libPath ("lib" ++ libName ++ ".so")

/-- What one `loadLib` call hands back: its `bool` result, the session afterwards, and the
events of the call. -/
structure LoadLibResult where
  found : Bool
  jit : OrcJit
  events : List Event
  deriving DecidableEq

/-- The `for (const auto &libPath : libPaths)` loop of `OrcJit::loadLib`, over the paths
still to visit. -/
def OrcJit.loadLibFrom (env : Env) (jit : OrcJit) (libName : String) :
    List String → Outcome LoadLibResult
  | [] => Outcome.returned { found := false, jit := jit, events := [] }
  | libPath :: rest =>
    let fullPath := libFullPath env libPath libName
    if env.fsExists fullPath then
      if env.Load fullPath then
        Outcome.returned
          { found := true
            jit := { jit with generators := addGenerator jit.generators (Generator.library fullPath) }
            events := [Event.probe libName fullPath, Event.registered libName fullPath] }
      else Outcome.aborted
    else
      match OrcJit.loadLibFrom env jit libName rest with
      | Outcome.returned r =>
        Outcome.returned { r with events := Event.probe libName fullPath :: r.events }
      | Outcome.aborted => Outcome.aborted

/-- Method `OrcJit::loadLib(libName, libPaths)`. -/
def OrcJit.loadLib (env : Env) (jit : OrcJit) (libName : String) (libPaths : StdSet) :
    Outcome LoadLibResult :=
  jit.loadLibFrom env libName libPaths.elems

/-- The file at which the loop of `loadLib` stops, the only one it hands to
`DynamicLibrarySearchGenerator::Load`: `lib<name>.so` under the first path, in iteration
order, for which `sys::fs::exists` holds; `none` when no path has the file. -/
def firstExistingFile (env : Env) (libName : String) : List String → Option String
  | [] => none
  | libPath :: rest =>
    if env.fsExists (libFullPath env libPath libName) then
      some (libFullPath env libPath libName)
    else firstExistingFile env libName rest

/-! ## class etiss::LLVMJIT -/

/-- The data members of `etiss::LLVMJIT`. -/
structure LLVMJIT where
  orcJit_ : OrcJit
  loadedLibs_ : Finset String
  deriving DecidableEq

/-- Constructor `LLVMJIT::LLVMJIT`, in the case that `OrcJit::Create` yields a session
(otherwise `cantFail` ends the constructor and there is no object). -/
def LLVMJIT.new : LLVMJIT := { orcJit_ := OrcJit.Create, loadedLibs_ := ∅ }

/-- The argument vector `args` that `translate` builds. -/
def translateArgs (env : Env) (headerpaths : StdSet) (debug : Bool) : List String :=
  [if debug then "-O0" else "-O3", "-std=c99", "-isystem" ++ env.jitFiles ++ "/clang_stdlib",
    "-isystem/usr/include"]
    ++ headerpaths.elems.map (fun headerPath => "-isystem" ++ headerPath)
    ++ ["/etiss_llvm_clang_memory_mapped_file.c", "-isystem/usr/include/x86_64-linux-gnu"]

/-- State of the `for (const auto &lib : libraries)` loop of `translate` when it is left:
`completed = false` when the loop was left through `return 0`. -/
structure LibraryLoopResult where
  completed : Bool
  self : LLVMJIT
  events : List Event
  deriving DecidableEq

/-- The `for (const auto &lib : libraries)` loop of `translate`, over the names still to
visit. -/
def LLVMJIT.loadLibraries (env : Env) (librarypaths : StdSet) :
    LLVMJIT → List String → Outcome LibraryLoopResult
  | self, [] => Outcome.returned { completed := true, self := self, events := [] }
  | self, lib :: rest =>
    if lib ∈ self.loadedLibs_ then
      LLVMJIT.loadLibraries env librarypaths self rest
    else
      match self.orcJit_.loadLib env lib librarypaths with
      | Outcome.aborted => Outcome.aborted
      | Outcome.returned r =>
        if r.found then
          match LLVMJIT.loadLibraries env librarypaths
              { orcJit_ := r.jit, loadedLibs_ := insert lib self.loadedLibs_ } rest with
          | Outcome.aborted => Outcome.aborted
          | Outcome.returned r2 => Outcome.returned { r2 with events := r.events ++ r2.events }
        else
          Outcome.returned
            { completed := false, self := { self with orcJit_ := r.jit }, events := r.events }

/-- Every file the library loop of `translate` hands to `Load` loads. The loop gets to a
name `x` of `libs` when every name before it is in `loadedLibs_` or has a file under some
path; it then calls `loadLib` when `x` is not in `loadedLibs_`, and `loadLib` hands the first
existing file of `x` to `Load`. Here `loaded` is `loadedLibs_` at the call. -/
def LoaderFilesLoad (env : Env) (loaded : Finset String) (paths libs : List String) : Prop :=
  ∀ pre x post, libs = pre ++ x :: post → x ∉ loaded →
    (∀ y ∈ pre, y ∈ loaded ∨ ∃ p ∈ paths, env.fsExists (libFullPath env p y) = true) →
    ∀ f, firstExistingFile env x paths = some f → env.Load f = true

/-- What a returning `translate` call leaves behind: the returned handle (`0` is the null
pointer), the string the `error` reference holds, the object afterwards, and the loader
events of the call. -/
structure TranslateResult where
  handle : Nat
  error : String
  self : LLVMJIT
  events : List Event
  deriving DecidableEq

/-- Method `LLVMJIT::translate`. The parameter `error` is the content of the caller's string
at the call. -/
def LLVMJIT.translate (env : Env) (self : LLVMJIT) (code : String)
    (headerpaths librarypaths libraries : StdSet) (error : String) (debug : Bool) :
    Outcome TranslateResult :=
  let args := translateArgs env headerpaths debug
  match self.loadLibraries env librarypaths libraries.elems with
  | Outcome.aborted => Outcome.aborted
  | Outcome.returned l =>
    if !l.completed then
      Outcome.returned
        { handle := 0, error := "could not load library", self := l.self, events := l.events }
    else if !env.CreateFromArgs args then
      Outcome.returned
        { handle := 0, error := "error on parsing args", self := l.self, events := l.events }
    else
      match env.ExecuteAction code args with
      | none =>
        Outcome.returned
          { handle := 0, error := "failed to execute translation action ", self := l.self,
            events := l.events }
      | some M =>
        match l.self.orcJit_.addModule env M with
        | Outcome.aborted => Outcome.aborted
        | Outcome.returned jit =>
          Outcome.returned
            { handle := 1, error := error, self := { l.self with orcJit_ := jit },
              events := l.events }

/-- Method `LLVMJIT::getFunction`: `compat::get_function_ptr(cantFail(orcJit_->lookup(name)))`.
The result pairs the returned address with the content of `error` after the call. -/
def LLVMJIT.getFunction (env : Env) (self : LLVMJIT) (handle : Nat) (name : String)
    (error : String) : Outcome (Nat × String) :=
  match self.orcJit_.lookup env name with
  | some addr => Outcome.returned (addr, error)
  | none => Outcome.aborted

/-- States a service instance can be in, with the loader events since its construction:
the constructed object, and whatever a returning `translate` call (with any arguments and
any behaviour of the collaborators) leaves. -/
inductive Reachable : LLVMJIT → List Event → Prop where
  | new : Reachable LLVMJIT.new []
  | translate (env : Env) (self : LLVMJIT) (log : List Event) (code : String)
      (headerpaths librarypaths libraries : StdSet) (error : String) (debug : Bool)
      (r : TranslateResult) :
      Reachable self log →
      self.translate env code headerpaths librarypaths libraries error debug
        = Outcome.returned r →
      Reachable r.self (log ++ r.events)

/-! ## Concrete collaborators for the closed examples -/

/-- A sample machine: library directories `/a`, `/b` and `/p`; `libm.so` lies in `/a`, `/b`
and `/p`, `libz.so` only in `/b`, and `/p/libbad.so` exists but cannot be loaded. The process
exports `f` at 100 and `g` at 101; every `libm.so` exports `f` and `sin`, `libz.so` exports
`sin` and `crc`. Only the source text `"int add(void);"` compiles. -/
def sampleEnv : Env where
  jitFiles := "/jit"
  pathAppend := fun libPath file => libPath ++ "/" ++ file
  fsExists := fun fullPath =>
    fullPath = "/a/libm.so" || fullPath = "/b/libm.so" || fullPath = "/p/libm.so"
      || fullPath = "/b/libz.so" || fullPath = "/p/libbad.so"
  Load := fun fullPath => fullPath != "/p/libbad.so"
  tryToGenerate := fun g n =>
    match g with
    | Generator.currentProcess =>
      if n = "f" then some 100 else if n = "g" then some 101 else none
    | Generator.library fullPath =>
      if fullPath = "/b/libz.so" then
        (if n = "sin" then some 300 else if n = "crc" then some 301 else none)
      else if n = "f" then some 200 else if n = "sin" then some 201 else none
  Mangle := fun n => n
  CreateFromArgs := fun _ => true
  ExecuteAction := fun code _ => if code = "int add(void);" then some [("add", 4096)] else none
  layerAdd := fun _ _ => true

/-- The sample machine with one change: `/p/libm.so` exists but cannot be loaded, while
`/a/libm.so` and `/b/libm.so` still load. -/
def shadowEnv : Env :=
  { sampleEnv with Load := fun fullPath => fullPath != "/p/libbad.so" && fullPath != "/p/libm.so" }

/-- The service object after library `m` was registered from `/a/libm.so` only. -/
def sampleLoadedA : LLVMJIT :=
  { orcJit_ := { symbols := []
                 generators := [Generator.currentProcess, Generator.library "/a/libm.so"] }
    loadedLibs_ := {"m"} }

/-- The service object after library `m` was registered from `/p/libm.so` and the module
defining `add` was added. -/
def sampleLoaded : LLVMJIT :=
  { orcJit_ := { symbols := [("add", 4096)]
                 generators := [Generator.currentProcess, Generator.library "/p/libm.so"] }
    loadedLibs_ := {"m"} }

/-- The service object after library `m` was registered from `/p/libm.so` by a call whose
source did not compile. -/
def sampleLibraryOnly : LLVMJIT :=
  { orcJit_ := { symbols := []
                 generators := [Generator.currentProcess, Generator.library "/p/libm.so"] }
    loadedLibs_ := {"m"} }

/-! ## Lemmas on the set model and the event helpers -/

theorem registeredNames_append (xs ys : List Event) :
    registeredNames (xs ++ ys) = registeredNames xs ++ registeredNames ys := by
  induction xs with
  | nil => rfl
  | cons e es ih => cases e <;> simp [registeredNames, ih]

theorem registeredGenerators_append (xs ys : List Event) :
    registeredGenerators (xs ++ ys) = registeredGenerators xs ++ registeredGenerators ys := by
  induction xs with
  | nil => rfl
  | cons e es ih => cases e <;> simp [registeredGenerators, ih]

theorem registeredGenerators_length (xs : List Event) :
    (registeredGenerators xs).length = (registeredNames xs).length := by
  induction xs with
  | nil => rfl
  | cons e es ih => cases e <;> simp [registeredGenerators, registeredNames, ih]

theorem registeredGenerators_isLibrary (xs : List Event) :
    (registeredGenerators xs).filter Generator.isLibrary = registeredGenerators xs := by
  induction xs with
  | nil => rfl
  | cons e es ih => cases e <;> simp [registeredGenerators, Generator.isLibrary, ih]

theorem mem_registeredNames {xs : List Event} {n : String} :
    n ∈ registeredNames xs ↔ ∃ fullPath, Event.registered n fullPath ∈ xs := by
  induction xs with
  | nil => simp [registeredNames]
  | cons e es ih =>
    cases e with
    | probe m q => simp [registeredNames, ih]
    | registered m q =>
      simp only [registeredNames, List.mem_cons, ih, Event.registered.injEq]
      constructor
      · rintro (rfl | ⟨fp, h⟩)
        · exact ⟨q, Or.inl ⟨rfl, rfl⟩⟩
        · exact ⟨fp, Or.inr h⟩
      · rintro ⟨fp, (⟨rfl, _⟩ | h)⟩
        · exact Or.inl rfl
        · exact Or.inr ⟨fp, h⟩

/-! ## Lemmas on `OrcJit::loadLib` -/

/-- No directory holds the file: every directory is probed, nothing is registered, and
`loadLib` returns `false`. -/
theorem loadLibFrom_absent (env : Env) (jit : OrcJit) (libName : String) (paths : List String)
    (h : ∀ p ∈ paths, env.fsExists (libFullPath env p libName) = false) :
    jit.loadLibFrom env libName paths = Outcome.returned
      { found := false, jit := jit
        events := paths.map (fun p => Event.probe libName (libFullPath env p libName)) } := by
  induction paths with
  | nil => rfl
  | cons p ps ih =>
    have hp := h p (List.mem_cons_self _ _)
    have hps := ih (fun q hq => h q (List.mem_cons_of_mem _ hq))
    simp [OrcJit.loadLibFrom, hp, hps]

/-- The file lies in directory `p` and in no directory visited before `p`: the directories up
to `p` are probed, then `Load` decides between registering exactly that file and aborting. -/
theorem loadLibFrom_first (env : Env) (jit : OrcJit) (libName : String)
    (before : List String) (p : String) (later : List String)
    (hbefore : ∀ q ∈ before, env.fsExists (libFullPath env q libName) = false)
    (hp : env.fsExists (libFullPath env p libName) = true) :
    jit.loadLibFrom env libName (before ++ p :: later) =
      if env.Load (libFullPath env p libName) then
        Outcome.returned
          { found := true
            jit := { jit with generators :=
              jit.generators ++ [Generator.library (libFullPath env p libName)] }
            events := before.map (fun q => Event.probe libName (libFullPath env q libName))
              ++ [Event.probe libName (libFullPath env p libName),
                  Event.registered libName (libFullPath env p libName)] }
      else Outcome.aborted := by
  induction before with
  | nil => simp [OrcJit.loadLibFrom, hp, addGenerator]
  | cons q qs ih =>
    have hq := hbefore q (List.mem_cons_self _ _)
    have hqs := ih (fun x hx => hbefore x (List.mem_cons_of_mem _ hx))
    rw [List.cons_append, OrcJit.loadLibFrom]
    simp only [hq, hqs]
    cases env.Load (libFullPath env p libName) <;> simp

/-- Either no directory holds the file, or the list of directories splits at the first one
that does. -/
theorem first_existing_split (env : Env) (libName : String) (paths : List String) :
    (∀ p ∈ paths, env.fsExists (libFullPath env p libName) = false) ∨
    ∃ before p later, paths = before ++ p :: later ∧
      (∀ q ∈ before, env.fsExists (libFullPath env q libName) = false) ∧
      env.fsExists (libFullPath env p libName) = true := by
  induction paths with
  | nil => left; simp
  | cons a as ih =>
    by_cases ha : env.fsExists (libFullPath env a libName) = true
    · right; exact ⟨[], a, as, rfl, by simp, ha⟩
    · rcases ih with h | ⟨before, p, later, hsplit, hb, hp⟩
      · left
        intro q hq
        rcases List.mem_cons.1 hq with rfl | hq
        · simpa using ha
        · exact h q hq
      · right
        refine ⟨a :: before, p, later, by rw [hsplit]; rfl, ?_, hp⟩
        intro q hq
        rcases List.mem_cons.1 hq with rfl | hq
        · simpa using ha
        · exact hb q hq

/-- What every returning `loadLib` call satisfies. -/
theorem loadLibFrom_returned (env : Env) (jit : OrcJit) (libName : String)
    (paths : List String) (r : LoadLibResult)
    (h : jit.loadLibFrom env libName paths = Outcome.returned r) :
    r.jit.symbols = jit.symbols ∧ (∀ e ∈ r.events, e.libName = libName) ∧
    ((r.found = false ∧ r.jit = jit ∧ registeredNames r.events = [] ∧
        registeredGenerators r.events = [] ∧
        ∀ p ∈ paths, env.fsExists (libFullPath env p libName) = false) ∨
     (r.found = true ∧ ∃ p ∈ paths, env.fsExists (libFullPath env p libName) = true ∧
        r.jit.generators = jit.generators ++ [Generator.library (libFullPath env p libName)] ∧
        registeredNames r.events = [libName] ∧
        registeredGenerators r.events = [Generator.library (libFullPath env p libName)])) := by
  rcases first_existing_split env libName paths with habs | ⟨before, p, later, hsplit, hb, hp⟩
  · rw [loadLibFrom_absent env jit libName paths habs] at h
    cases h
    refine ⟨rfl, ?_, Or.inl ⟨rfl, rfl, ?_, ?_, habs⟩⟩
    · intro e he
      simp only [List.mem_map] at he
      rcases he with ⟨q, _, rfl⟩
      rfl
    · clear habs; induction paths with
      | nil => rfl
      | cons a as ih => simpa [registeredNames] using ih
    · clear habs; induction paths with
      | nil => rfl
      | cons a as ih => simpa [registeredGenerators] using ih
  · subst hsplit
    rw [loadLibFrom_first env jit libName before p later hb hp] at h
    split_ifs at h with hl
    cases h
    have hnames : ∀ l : List String, registeredNames
        (l.map (fun q => Event.probe libName (libFullPath env q libName))) = [] := by
      intro l; induction l with
      | nil => rfl
      | cons a as ih => simpa [registeredNames] using ih
    have hgens : ∀ l : List String, registeredGenerators
        (l.map (fun q => Event.probe libName (libFullPath env q libName))) = [] := by
      intro l; induction l with
      | nil => rfl
      | cons a as ih => simpa [registeredGenerators] using ih
    refine ⟨rfl, ?_, Or.inr ⟨rfl, p, by simp, hp, rfl, ?_, ?_⟩⟩
    · intro e he
      simp only [List.mem_append, List.mem_map, List.mem_cons, List.mem_singleton,
        List.not_mem_nil, or_false] at he
      rcases he with ⟨q, _, rfl⟩ | rfl | rfl <;> rfl
    · simp [registeredNames_append, hnames, registeredNames]
    · simp [registeredGenerators_append, hgens, registeredGenerators]

theorem firstExistingFile_eq_none (env : Env) (libName : String) (paths : List String) :
    firstExistingFile env libName paths = none ↔
      ∀ p ∈ paths, env.fsExists (libFullPath env p libName) = false := by
  induction paths with
  | nil => simp [firstExistingFile]
  | cons a as ih =>
    simp only [firstExistingFile, List.mem_cons, forall_eq_or_imp]
    by_cases ha : env.fsExists (libFullPath env a libName) = true
    · simp [ha]
    · have ha2 : env.fsExists (libFullPath env a libName) = false := by simpa using ha
      simp [ha2, ih]

theorem firstExistingFile_eq_some (env : Env) (libName : String) (paths : List String) :
    (∃ f, firstExistingFile env libName paths = some f) ↔
      ∃ p ∈ paths, env.fsExists (libFullPath env p libName) = true := by
  constructor
  · rintro ⟨f, hf⟩
    by_contra hno
    have hall : ∀ p ∈ paths, env.fsExists (libFullPath env p libName) = false := by
      intro p hp
      by_contra hne
      exact hno ⟨p, hp, by simpa using hne⟩
    rw [(firstExistingFile_eq_none env libName paths).2 hall] at hf
    cases hf
  · rintro ⟨p, hp, hex⟩
    cases hfe : firstExistingFile env libName paths with
    | some f => exact ⟨f, rfl⟩
    | none =>
      rw [(firstExistingFile_eq_none env libName paths).1 hfe p hp] at hex
      cases hex

/-- The outcome of a `loadLib` call whose loop stops at file `f`: it registers and returns
`true` when `f` loads, and does not return when `f` does not load. -/
theorem loadLibFrom_some (env : Env) (jit : OrcJit) (libName : String) :
    ∀ (paths : List String) (f : String), firstExistingFile env libName paths = some f →
      (env.Load f = true →
        ∃ r, jit.loadLibFrom env libName paths = Outcome.returned r ∧ r.found = true) ∧
      (env.Load f = false → jit.loadLibFrom env libName paths = Outcome.aborted) := by
  intro paths
  induction paths with
  | nil => intro f h; simp [firstExistingFile] at h
  | cons p ps ih =>
    intro f h
    rw [firstExistingFile] at h
    by_cases hp : env.fsExists (libFullPath env p libName) = true
    · rw [if_pos hp] at h
      cases h
      constructor
      · intro hl
        rw [OrcJit.loadLibFrom]
        simp only [hp, hl, if_true]
        exact ⟨_, rfl, rfl⟩
      · intro hl
        rw [OrcJit.loadLibFrom]
        simp [hp, hl]
    · rw [if_neg hp] at h
      obtain ⟨h1, h2⟩ := ih f h
      constructor
      · intro hl
        obtain ⟨r, hr, hf⟩ := h1 hl
        rw [OrcJit.loadLibFrom]
        have hp2 : env.fsExists (libFullPath env p libName) = false := by simpa using hp
        simp only [hp2, hr, Bool.false_eq_true, if_false]
        exact ⟨_, rfl, hf⟩
      · intro hl
        rw [OrcJit.loadLibFrom]
        simp [hp, h2 hl]

theorem registeredNames_libName {evs : List Event} {n : String} (h : n ∈ registeredNames evs) :
    ∃ e ∈ evs, e.libName = n := by
  rcases mem_registeredNames.1 h with ⟨fp, hfp⟩
  exact ⟨_, hfp, rfl⟩

/-- What every returning run of the library loop satisfies: module symbols are untouched,
the generators registered are appended in event order, `loadedLibs_` gains exactly the
registered names, no name is registered twice, and every event belongs to a requested name
that was not in `loadedLibs_` when the loop started. -/
theorem loadLibraries_returned (env : Env) (librarypaths : StdSet) (l : List String) :
    ∀ (self : LLVMJIT) (r : LibraryLoopResult),
      self.loadLibraries env librarypaths l = Outcome.returned r →
      r.self.orcJit_.symbols = self.orcJit_.symbols ∧
      r.self.orcJit_.generators = self.orcJit_.generators ++ registeredGenerators r.events ∧
      (∀ x, x ∈ r.self.loadedLibs_ ↔ x ∈ self.loadedLibs_ ∨ x ∈ registeredNames r.events) ∧
      (registeredNames r.events).Nodup ∧
      (∀ e ∈ r.events, e.libName ∈ l ∧ e.libName ∉ self.loadedLibs_) := by
  induction l with
  | nil =>
    intro self r h
    simp only [LLVMJIT.loadLibraries, Outcome.returned.injEq] at h
    subst h
    simp [registeredGenerators, registeredNames]
  | cons lib rest ih =>
    intro self r h
    rw [LLVMJIT.loadLibraries] at h
    by_cases hmem : lib ∈ self.loadedLibs_
    · rw [if_pos hmem] at h
      obtain ⟨h1, h2, h3, h4, h5⟩ := ih self r h
      exact ⟨h1, h2, h3, h4, fun e he => ⟨List.mem_cons_of_mem _ (h5 e he).1, (h5 e he).2⟩⟩
    · rw [if_neg hmem] at h
      cases hl : self.orcJit_.loadLib env lib librarypaths with
      | aborted => rw [hl] at h; cases h
      | returned r1 =>
        rw [hl] at h
        obtain ⟨hs1, he1, hcase⟩ := loadLibFrom_returned env _ lib _ r1 hl
        rcases hcase with ⟨hf, hjit, hn, hg, _⟩ | ⟨hf, p, _, _, hgen, hn, hg⟩
        · simp only [hf, Bool.false_eq_true, if_false, Outcome.returned.injEq] at h
          subst h
          refine ⟨by simp [hjit], by simp [hjit, hg], by simp [hn], by simp [hn], ?_⟩
          intro e he
          rw [he1 e he]
          exact ⟨List.mem_cons_self _ _, hmem⟩
        · simp only [hf, if_true] at h
          cases hrec : LLVMJIT.loadLibraries env librarypaths
              { orcJit_ := r1.jit, loadedLibs_ := insert lib self.loadedLibs_ } rest with
          | aborted => rw [hrec] at h; cases h
          | returned r2 =>
            rw [hrec] at h
            simp only [Outcome.returned.injEq] at h
            subst h
            obtain ⟨h1, h2, h3, h4, h5⟩ := ih _ r2 hrec
            simp only at h1 h2 h3 h5
            refine ⟨by rw [h1, hs1], ?_, ?_, ?_, ?_⟩
            · simp only [h2, hgen, registeredGenerators_append, hg, List.append_assoc]
            · intro x
              simp only [h3, registeredNames_append, hn, Finset.mem_insert, List.mem_append,
                List.mem_singleton]
              tauto
            · simp only [registeredNames_append, hn, List.singleton_append, List.nodup_cons]
              refine ⟨?_, h4⟩
              intro hin
              obtain ⟨e, he, hname⟩ := registeredNames_libName hin
              exact (h5 e he).2 (by rw [hname]; exact Finset.mem_insert_self _ _)
            · intro e he
              rcases List.mem_append.1 he with he | he
              · rw [he1 e he]
                exact ⟨List.mem_cons_self _ _, hmem⟩
              · exact ⟨List.mem_cons_of_mem _ (h5 e he).1,
                  fun hx => (h5 e he).2 (Finset.mem_insert_of_mem hx)⟩

/-- When every requested name is already in `loadedLibs_`, the loop does nothing. -/
theorem loadLibraries_all_loaded (env : Env) (librarypaths : StdSet) (self : LLVMJIT)
    (l : List String) (h : ∀ lib ∈ l, lib ∈ self.loadedLibs_) :
    self.loadLibraries env librarypaths l =
      Outcome.returned { completed := true, self := self, events := [] } := by
  induction l with
  | nil => rfl
  | cons lib rest ih =>
    rw [LLVMJIT.loadLibraries, if_pos (h lib (List.mem_cons_self _ _))]
    exact ih (fun x hx => h x (List.mem_cons_of_mem _ hx))

/-- One step of the library loop for a name that is not loaded and whose first existing
file loads: `loadLib` registers it, the name enters `loadedLibs_`, and the loop goes on. -/
theorem loadLibraries_cons_found (env : Env) (librarypaths : StdSet) (self : LLVMJIT)
    (x : String) (rest : List String) (f : String) (hmem : x ∉ self.loadedLibs_)
    (hfe : firstExistingFile env x librarypaths.elems = some f) (hl : env.Load f = true) :
    ∃ r1 : LoadLibResult, self.loadLibraries env librarypaths (x :: rest) =
      match LLVMJIT.loadLibraries env librarypaths
          { orcJit_ := r1.jit, loadedLibs_ := insert x self.loadedLibs_ } rest with
      | Outcome.aborted => Outcome.aborted
      | Outcome.returned r2 => Outcome.returned { r2 with events := r1.events ++ r2.events } := by
  obtain ⟨r1, hr1, hf⟩ := (loadLibFrom_some env self.orcJit_ x librarypaths.elems f hfe).1 hl
  have hr1b : self.orcJit_.loadLib env x librarypaths = Outcome.returned r1 := hr1
  refine ⟨r1, ?_⟩
  rw [LLVMJIT.loadLibraries, if_neg hmem, hr1b]
  simp only [hf, if_true]

/-- The library loop returns exactly when every file it hands to `Load` loads. -/
theorem loadLibraries_returns_iff (env : Env) (librarypaths : StdSet) (l : List String) :
    ∀ self : LLVMJIT,
      (∃ r, self.loadLibraries env librarypaths l = Outcome.returned r) ↔
        LoaderFilesLoad env self.loadedLibs_ librarypaths.elems l := by
  induction l with
  | nil =>
    intro self
    constructor
    · intro _ pre x post hsplit
      cases pre <;> cases hsplit
    · intro _
      exact ⟨_, rfl⟩
  | cons x rest ih =>
    intro self
    by_cases hmem : x ∈ self.loadedLibs_
    · have hstep : self.loadLibraries env librarypaths (x :: rest)
          = self.loadLibraries env librarypaths rest := by
        rw [LLVMJIT.loadLibraries, if_pos hmem]
      rw [hstep, ih self]
      constructor
      · intro h pre y post hsplit hy hpre f hf
        cases pre with
        | nil =>
          simp only [List.nil_append, List.cons.injEq] at hsplit
          exact absurd (hsplit.1 ▸ hmem) hy
        | cons a pre2 =>
          simp only [List.cons_append, List.cons.injEq] at hsplit
          exact h pre2 y post hsplit.2 hy
            (fun z hz => hpre z (List.mem_cons_of_mem _ hz)) f hf
      · intro h pre y post hsplit hy hpre f hf
        refine h (x :: pre) y post (by rw [hsplit]; rfl) hy ?_ f hf
        intro z hz
        rcases List.mem_cons.1 hz with rfl | hz
        · exact Or.inl hmem
        · exact hpre z hz
    · cases hfe : firstExistingFile env x librarypaths.elems with
      | none =>
        have hno := (firstExistingFile_eq_none env x librarypaths.elems).1 hfe
        have h1 : self.orcJit_.loadLib env x librarypaths = _ :=
          loadLibFrom_absent env self.orcJit_ x librarypaths.elems hno
        constructor
        · intro _ pre y post hsplit hy hpre f hf
          cases pre with
          | nil =>
            simp only [List.nil_append, List.cons.injEq] at hsplit
            rw [← hsplit.1, hfe] at hf
            cases hf
          | cons a pre2 =>
            simp only [List.cons_append, List.cons.injEq] at hsplit
            exfalso
            rcases hpre a (List.mem_cons_self _ _) with ha | ⟨q, hq, hex⟩
            · exact hmem (hsplit.1 ▸ ha)
            · rw [← hsplit.1, hno q hq] at hex
              cases hex
        · intro _
          rw [LLVMJIT.loadLibraries, if_neg hmem, h1]
          exact ⟨_, rfl⟩
      | some f =>
        cases hl : env.Load f with
        | false =>
          have hab := (loadLibFrom_some env self.orcJit_ x librarypaths.elems f hfe).2 hl
          have hab2 : self.orcJit_.loadLib env x librarypaths = Outcome.aborted := hab
          constructor
          · rintro ⟨r, hr⟩
            rw [LLVMJIT.loadLibraries, if_neg hmem, hab2] at hr
            cases hr
          · intro h
            have := h [] x rest rfl hmem (fun z hz => absurd hz (List.not_mem_nil z)) f hfe
            rw [hl] at this
            cases this
        | true =>
          obtain ⟨r1, hstep⟩ :=
            loadLibraries_cons_found env librarypaths self x rest f hmem hfe hl
          have hfound : ∃ p ∈ librarypaths.elems,
              env.fsExists (libFullPath env p x) = true :=
            (firstExistingFile_eq_some env x librarypaths.elems).1 ⟨f, hfe⟩
          have hrec := ih { orcJit_ := r1.jit, loadedLibs_ := insert x self.loadedLibs_ }
          have hret : (∃ r, self.loadLibraries env librarypaths (x :: rest)
                = Outcome.returned r) ↔
              ∃ r2, LLVMJIT.loadLibraries env librarypaths
                { orcJit_ := r1.jit, loadedLibs_ := insert x self.loadedLibs_ } rest
                = Outcome.returned r2 := by
            rw [hstep]
            cases LLVMJIT.loadLibraries env librarypaths
                { orcJit_ := r1.jit, loadedLibs_ := insert x self.loadedLibs_ } rest with
            | aborted => simp
            | returned r2 => simp
          rw [hret, hrec]
          constructor
          · intro h pre y post hsplit hy hpre g hg
            cases pre with
            | nil =>
              simp only [List.nil_append, List.cons.injEq] at hsplit
              rw [← hsplit.1, hfe] at hg
              cases hg
              exact hl
            | cons a pre2 =>
              simp only [List.cons_append, List.cons.injEq] at hsplit
              by_cases hyx : y = x
              · rw [hyx, hfe] at hg
                cases hg
                exact hl
              · refine h pre2 y post hsplit.2 ?_ ?_ g hg
                · simp only [Finset.mem_insert, not_or]
                  exact ⟨hyx, hy⟩
                · intro z hz
                  exact (hpre z (List.mem_cons_of_mem _ hz)).imp
                    (fun hin => Finset.mem_insert_of_mem hin) id
          · intro h pre y post hsplit hy hpre g hg
            have hy2 : y ∉ self.loadedLibs_ :=
              fun hin => hy (Finset.mem_insert_of_mem hin)
            refine h (x :: pre) y post (by rw [hsplit]; rfl) hy2 ?_ g hg
            intro z hz
            rcases List.mem_cons.1 hz with rfl | hz
            · exact Or.inr hfound
            · rcases hpre z hz with hin | hex
              · rcases Finset.mem_insert.1 hin with rfl | hin
                · exact Or.inr hfound
                · exact Or.inl hin
              · exact Or.inr hex

/-- The library loop runs to its end exactly when every requested name is in `loadedLibs_`
already or has a first existing file that loads. -/
theorem loadLibraries_completed_iff (env : Env) (librarypaths : StdSet) (l : List String) :
    ∀ self : LLVMJIT,
      (∃ r, self.loadLibraries env librarypaths l = Outcome.returned r ∧ r.completed = true) ↔
        ∀ x ∈ l, x ∈ self.loadedLibs_ ∨
          ∃ f, firstExistingFile env x librarypaths.elems = some f ∧ env.Load f = true := by
  induction l with
  | nil =>
    intro self
    constructor
    · intro _ x hx
      cases hx
    · intro _
      exact ⟨_, rfl, rfl⟩
  | cons x rest ih =>
    intro self
    by_cases hmem : x ∈ self.loadedLibs_
    · have hstep : self.loadLibraries env librarypaths (x :: rest)
          = self.loadLibraries env librarypaths rest := by
        rw [LLVMJIT.loadLibraries, if_pos hmem]
      rw [hstep, ih self]
      constructor
      · intro h y hy
        rcases List.mem_cons.1 hy with rfl | hy
        · exact Or.inl hmem
        · exact h y hy
      · intro h y hy
        exact h y (List.mem_cons_of_mem _ hy)
    · cases hfe : firstExistingFile env x librarypaths.elems with
      | none =>
        have hno := (firstExistingFile_eq_none env x librarypaths.elems).1 hfe
        have h1 : self.orcJit_.loadLib env x librarypaths = _ :=
          loadLibFrom_absent env self.orcJit_ x librarypaths.elems hno
        constructor
        · rintro ⟨r, hr, hc⟩
          rw [LLVMJIT.loadLibraries, if_neg hmem, h1] at hr
          simp only [Bool.false_eq_true, if_false, Outcome.returned.injEq] at hr
          subst hr
          cases hc
        · intro h
          rcases h x (List.mem_cons_self _ _) with hin | ⟨f, hf, _⟩
          · exact absurd hin hmem
          · rw [hfe] at hf
            cases hf
      | some f =>
        cases hl : env.Load f with
        | false =>
          have hab := (loadLibFrom_some env self.orcJit_ x librarypaths.elems f hfe).2 hl
          have hab2 : self.orcJit_.loadLib env x librarypaths = Outcome.aborted := hab
          constructor
          · rintro ⟨r, hr, _⟩
            rw [LLVMJIT.loadLibraries, if_neg hmem, hab2] at hr
            cases hr
          · intro h
            rcases h x (List.mem_cons_self _ _) with hin | ⟨g, hg, hlg⟩
            · exact absurd hin hmem
            · rw [hfe] at hg
              cases hg
              rw [hl] at hlg
              cases hlg
        | true =>
          obtain ⟨r1, hstep⟩ :=
            loadLibraries_cons_found env librarypaths self x rest f hmem hfe hl
          have hrec := ih { orcJit_ := r1.jit, loadedLibs_ := insert x self.loadedLibs_ }
          have hret : (∃ r, self.loadLibraries env librarypaths (x :: rest)
                = Outcome.returned r ∧ r.completed = true) ↔
              ∃ r2, LLVMJIT.loadLibraries env librarypaths
                { orcJit_ := r1.jit, loadedLibs_ := insert x self.loadedLibs_ } rest
                = Outcome.returned r2 ∧ r2.completed = true := by
            rw [hstep]
            cases LLVMJIT.loadLibraries env librarypaths
                { orcJit_ := r1.jit, loadedLibs_ := insert x self.loadedLibs_ } rest with
            | aborted => simp
            | returned r2 =>
              constructor
              · rintro ⟨r, hr, hc⟩
                simp only [Outcome.returned.injEq] at hr
                subst hr
                exact ⟨r2, rfl, hc⟩
              · rintro ⟨r, hr, hc⟩
                simp only [Outcome.returned.injEq] at hr
                subst hr
                exact ⟨_, rfl, hc⟩
          rw [hret, hrec]
          constructor
          · intro h y hy
            rcases List.mem_cons.1 hy with rfl | hy
            · exact Or.inr ⟨f, hfe, hl⟩
            · rcases h y hy with hin | hok
              · rcases Finset.mem_insert.1 hin with rfl | hin
                · exact Or.inr ⟨f, hfe, hl⟩
                · exact Or.inl hin
              · exact Or.inr hok
          · intro h y hy
            exact (h y (List.mem_cons_of_mem _ hy)).imp
              (fun hin => Finset.mem_insert_of_mem hin) id

theorem msg_library_ne : ("could not load library" : String) ≠ "" := by decide

theorem msg_args_ne : ("error on parsing args" : String) ≠ "" := by decide

theorem msg_action_ne : ("failed to execute translation action " : String) ≠ "" := by decide

/-- Every returning `translate` call ran the library loop to its end or to `return 0`, and
then either failed with the null handle and one of the three fixed messages, keeping the
object as the loop left it, or added the compiled module and returned handle 1 without
writing `error`. -/
theorem translate_returned (env : Env) (self : LLVMJIT) (code : String)
    (headerpaths librarypaths libraries : StdSet) (error : String) (debug : Bool)
    (r : TranslateResult)
    (h : self.translate env code headerpaths librarypaths libraries error debug
      = Outcome.returned r) :
    ∃ l, self.loadLibraries env librarypaths libraries.elems = Outcome.returned l ∧
      r.events = l.events ∧ r.self.loadedLibs_ = l.self.loadedLibs_ ∧
      r.self.orcJit_.generators = l.self.orcJit_.generators ∧
      ((r.handle = 0 ∧ r.error ≠ "" ∧ r.self = l.self ∧
          (l.completed = false ∨
            env.CreateFromArgs (translateArgs env headerpaths debug) = false ∨
            env.ExecuteAction code (translateArgs env headerpaths debug) = none)) ∨
       (r.handle = 1 ∧ r.error = error ∧ l.completed = true ∧
          env.CreateFromArgs (translateArgs env headerpaths debug) = true ∧
          ∃ M, env.ExecuteAction code (translateArgs env headerpaths debug) = some M ∧
            env.layerAdd l.self.orcJit_.symbols M = true ∧
            r.self.orcJit_.symbols = l.self.orcJit_.symbols ++ M)) := by
  unfold LLVMJIT.translate at h
  cases hl : self.loadLibraries env librarypaths libraries.elems with
  | aborted => rw [hl] at h; cases h
  | returned l =>
    rw [hl] at h
    refine ⟨l, rfl, ?_⟩
    simp only at h
    cases hc : l.completed with
    | false =>
      simp only [hc, Bool.not_false, if_true, Outcome.returned.injEq] at h
      subst h
      exact ⟨rfl, rfl, rfl, Or.inl ⟨rfl, msg_library_ne, rfl, Or.inl rfl⟩⟩
    | true =>
      simp only [hc, Bool.not_true, Bool.false_eq_true, if_false] at h
      cases ha : env.CreateFromArgs (translateArgs env headerpaths debug) with
      | false =>
        simp only [ha, Bool.not_false, if_true, Outcome.returned.injEq] at h
        subst h
        exact ⟨rfl, rfl, rfl, Or.inl ⟨rfl, msg_args_ne, rfl, Or.inr (Or.inl rfl)⟩⟩
      | true =>
        simp only [ha, Bool.not_true, Bool.false_eq_true, if_false] at h
        cases hx : env.ExecuteAction code (translateArgs env headerpaths debug) with
        | none =>
          simp only [hx, Outcome.returned.injEq] at h
          subst h
          exact ⟨rfl, rfl, rfl, Or.inl ⟨rfl, msg_action_ne, rfl, Or.inr (Or.inr rfl)⟩⟩
        | some M =>
          simp only [hx, OrcJit.addModule] at h
          cases hadd : env.layerAdd l.self.orcJit_.symbols M with
          | false => simp [hadd] at h
          | true =>
            simp only [hadd, if_true, Outcome.returned.injEq] at h
            subst h
            exact ⟨rfl, rfl, rfl, Or.inr ⟨rfl, rfl, rfl, rfl, M, rfl, hadd, rfl⟩⟩

/-- A failing step makes `translate` return the null handle as soon as the library loop
returns. -/
theorem translate_of_loop_returned (env : Env) (self : LLVMJIT) (code : String)
    (headerpaths librarypaths libraries : StdSet) (error : String) (debug : Bool)
    (l : LibraryLoopResult)
    (hl : self.loadLibraries env librarypaths libraries.elems = Outcome.returned l)
    (hfail : l.completed = false ∨
      env.CreateFromArgs (translateArgs env headerpaths debug) = false ∨
      env.ExecuteAction code (translateArgs env headerpaths debug) = none) :
    ∃ msg, msg ≠ "" ∧
      (l.completed = false → msg = "could not load library") ∧
      self.translate env code headerpaths librarypaths libraries error debug =
        Outcome.returned { handle := 0, error := msg, self := l.self, events := l.events } := by
  unfold LLVMJIT.translate
  rw [hl]
  simp only
  cases hc : l.completed with
  | false => exact ⟨_, by decide, fun _ => rfl, by simp⟩
  | true =>
    cases ha : env.CreateFromArgs (translateArgs env headerpaths debug) with
    | false => exact ⟨"error on parsing args", by decide, by simp, by simp⟩
    | true =>
      rcases hfail with h | h | h
      · rw [hc] at h; cases h
      · rw [ha] at h; cases h
      · exact ⟨"failed to execute translation action ", by decide, by simp, by simp [h]⟩

/-! ## Lemmas on `lookup` -/

theorem searchGenerators_none (env : Env) (n : String) (gs : List Generator)
    (h : ∀ g ∈ gs, env.tryToGenerate g n = none) : searchGenerators env n gs = none := by
  induction gs with
  | nil => rfl
  | cons g gs ih =>
    simp only [searchGenerators, h g (List.mem_cons_self _ _)]
    exact ih (fun x hx => h x (List.mem_cons_of_mem _ hx))

theorem searchGenerators_first (env : Env) (n : String) (before : List Generator)
    (g : Generator) (later : List Generator) (a : Nat)
    (hbefore : ∀ g2 ∈ before, env.tryToGenerate g2 n = none)
    (hg : env.tryToGenerate g n = some a) :
    searchGenerators env n (before ++ g :: later) = some a := by
  induction before with
  | nil => simp [searchGenerators, hg]
  | cons b bs ih =>
    simp only [List.cons_append, searchGenerators, hbefore b (List.mem_cons_self _ _)]
    exact ih (fun x hx => hbefore x (List.mem_cons_of_mem _ hx))

theorem searchGenerators_append_some (env : Env) (n : String) (gs hs : List Generator) (a : Nat)
    (h : searchGenerators env n gs = some a) : searchGenerators env n (gs ++ hs) = some a := by
  induction gs with
  | nil => simp [searchGenerators] at h
  | cons g gs ih =>
    simp only [List.cons_append, searchGenerators] at h ⊢
    cases hg : env.tryToGenerate g n with
    | some b => rw [hg] at h; exact h
    | none => rw [hg] at h; exact ih h

/-- Appending generators never changes the address of a name that resolved before. -/
theorem lookup_append_some (env : Env) (jit : OrcJit) (hs : List Generator) (name : String)
    (a : Nat) (h : jit.lookup env name = some a) :
    OrcJit.lookup env { jit with generators := jit.generators ++ hs } name = some a := by
  unfold OrcJit.lookup at h ⊢
  cases hsym : jit.symbols.lookup (env.Mangle name) with
  | some b => rw [hsym] at h; simpa [hsym] using h
  | none =>
    rw [hsym] at h
    simp only [hsym]
    exact searchGenerators_append_some env _ _ hs a h

/-! ## Failure and success of `translate` -/

/-- C9, as stated, fails at an explicit input: every step of the call succeeds and handle 1
is returned, but the error string holds `"stale"` when the call returns, as it did at the
call. -/
theorem translate_success_stale_error_example :
    LLVMJIT.new.translate sampleEnv "int add(void);" StdSet.empty StdSet.empty StdSet.empty
      "stale" false =
      Outcome.returned
        { handle := 1, error := "stale"
          self := { orcJit_ := { symbols := [("add", 4096)],
                                 generators := [Generator.currentProcess] }
                    loadedLibs_ := ∅ }
          events := [] } ∧
    ("stale" : String) ≠ "" := by
  decide

/-- C9, amended: when the arguments parse, the compile action yields a module and
`addModule` succeeds on it, `translate` returns the sentinel handle 1 exactly when library
loading succeeds, that is, when every required library is in `loadedLibs_` already or has a
first existing file that loads; and it then leaves the error string as the caller passed it
(empty exactly when it was empty at the call). -/
theorem translate_success_sentinel (env : Env) (self : LLVMJIT) (code : String)
    (headerpaths librarypaths libraries : StdSet) (error : String) (debug : Bool) (M : IRModule)
    (hargs : env.CreateFromArgs (translateArgs env headerpaths debug) = true)
    (haction : env.ExecuteAction code (translateArgs env headerpaths debug) = some M)
    (hadd : env.layerAdd self.orcJit_.symbols M = true) :
    (∀ lib ∈ libraries.elems, lib ∈ self.loadedLibs_ ∨
        ∃ f, firstExistingFile env lib librarypaths.elems = some f ∧ env.Load f = true) ↔
    ∃ r, self.translate env code headerpaths librarypaths libraries error debug
        = Outcome.returned r ∧
      r.handle = 1 ∧ r.error = error ∧ (r.error = "" ↔ error = "") := by
  constructor
  · intro hlib
    obtain ⟨l, hl, hc⟩ :=
      (loadLibraries_completed_iff env librarypaths libraries.elems self).2 hlib
    obtain ⟨hsym, _⟩ := loadLibraries_returned env librarypaths libraries.elems self l hl
    unfold LLVMJIT.translate
    rw [hl]
    simp only [hc, hargs, haction, OrcJit.addModule, hsym, hadd, Bool.not_true,
      Bool.false_eq_true, if_false, if_true]
    exact ⟨_, rfl, rfl, rfl, Iff.rfl⟩
  · rintro ⟨r, hr, h1, _⟩
    obtain ⟨l, hl, _, _, _, hcase⟩ :=
      translate_returned env self code headerpaths librarypaths libraries error debug r hr
    rcases hcase with ⟨h0, _⟩ | ⟨_, _, hc, _⟩
    · rw [h0] at h1; cases h1
    · exact (loadLibraries_completed_iff env librarypaths libraries.elems self).1 ⟨l, hl, hc⟩

/-- Witness for `translate_success_sentinel`: a compiling source that requires library `m`,
with search paths `/a` and `/p`, on a fresh service. The file `/p/libm.so` exists and does
not load, but `loadLib` stops at `/a/libm.so`, which loads, so library loading succeeds. -/
theorem translate_success_sentinel_witness :
    (shadowEnv.fsExists "/p/libm.so" = true ∧ shadowEnv.Load "/p/libm.so" = false) ∧
    ∃ r, LLVMJIT.new.translate shadowEnv "int add(void);" StdSet.empty
        (StdSet.ofList ["/p", "/a"]) (StdSet.ofList ["m"]) "" false = Outcome.returned r ∧
      r.handle = 1 ∧ r.error = "" ∧ (r.error = "" ↔ ("" : String) = "") :=
  ⟨by decide,
    (translate_success_sentinel shadowEnv LLVMJIT.new "int add(void);" StdSet.empty
      (StdSet.ofList ["/p", "/a"]) (StdSet.ofList ["m"]) "" false [("add", 4096)]
      (by decide) (by decide) (by decide)).1
      (fun lib hlib => Or.inr ⟨"/a/libm.so",
        by
          have hm : lib = "m" := by simpa [StdSet.ofList, StdSet.insert, StdSet.empty, setInsert] using hlib
          subst hm
          decide,
        by decide⟩)⟩

/-! ## `getFunction` -/

/-- C2: for a name that neither the symbols of compiled code nor any registered generator
resolves, `getFunction` runs into `cantFail` on the error value of `lookup`: the call does
not return, so no null address and no diagnostic string reach the caller. -/
theorem getFunction_unresolved_aborts (env : Env) (self : LLVMJIT) (handle : Nat)
    (name error : String)
    (hsym : self.orcJit_.symbols.lookup (env.Mangle name) = none)
    (hgen : ∀ g ∈ self.orcJit_.generators, env.tryToGenerate g (env.Mangle name) = none) :
    self.getFunction env handle name error = Outcome.aborted := by
  simp [LLVMJIT.getFunction, OrcJit.lookup, hsym, searchGenerators_none env _ _ hgen]

/-- Witness for `getFunction_unresolved_aborts`: the name `nosuch` on a fresh service. -/
theorem getFunction_unresolved_aborts_witness :
    LLVMJIT.new.getFunction sampleEnv 0 "nosuch" "" = Outcome.aborted :=
  getFunction_unresolved_aborts sampleEnv LLVMJIT.new 0 "nosuch" "" (by decide) (by decide)

/-- C10: the handle passed to `getFunction` has no influence on its result; any two handles
give the same outcome for the same object, name and error string. -/
theorem getFunction_handle_irrelevant (env : Env) (self : LLVMJIT) (h1 h2 : Nat)
    (name error : String) :
    self.getFunction env h1 name error = self.getFunction env h2 name error := rfl

/-! ## The library loader -/

/-- C7, as stated, fails at an explicit input: the caller supplies the search paths as
`/b` then `/a`, the file `libm.so` lies under both, and the loader registers `/a/libm.so`,
the file of the path that comes first in the ordering of `std::set`, not the file of the
path the caller supplied first. Also, for library `bad`, whose file under `/p` exists but
does not load, the loader registers nothing: the call does not return. -/
theorem loadLib_set_order_example :
    sampleEnv.fsExists (libFullPath sampleEnv "/b" "m") = true ∧
    sampleEnv.fsExists (libFullPath sampleEnv "/a" "m") = true ∧
    OrcJit.Create.loadLib sampleEnv "m" (StdSet.ofList ["/b", "/a"]) =
      Outcome.returned
        { found := true
          jit := { symbols := []
                   generators := [Generator.currentProcess, Generator.library "/a/libm.so"] }
          events := [Event.probe "m" "/a/libm.so", Event.registered "m" "/a/libm.so"] } ∧
    OrcJit.Create.loadLib sampleEnv "bad" (StdSet.ofList ["/p"]) = Outcome.aborted := by
  decide

/-- C7, amended: the search paths reach the loader as a `std::set`, which it visits in
ascending string order whatever order the caller supplied them in. If `p` is the first path
in that order under which `lib<name>.so` exists, and that file loads, the loader returns
`true` after registering exactly that file: one generator is appended, nothing else changes,
and no path after `p` is probed. -/
theorem loadLib_first_in_set_order (env : Env) (jit : OrcJit) (libName : String)
    (libPaths : StdSet) (before : List String) (p : String) (later : List String)
    (hsplit : libPaths.elems = before ++ p :: later)
    (hbefore : ∀ q ∈ before, env.fsExists (libFullPath env q libName) = false)
    (hp : env.fsExists (libFullPath env p libName) = true)
    (hload : env.Load (libFullPath env p libName) = true) :
    (∀ q ∈ before, strLess q p = true) ∧ (∀ q ∈ later, strLess p q = true) ∧
    jit.loadLib env libName libPaths =
      Outcome.returned
        { found := true
          jit := { jit with generators :=
            jit.generators ++ [Generator.library (libFullPath env p libName)] }
          events := before.map (fun q => Event.probe libName (libFullPath env q libName))
            ++ [Event.probe libName (libFullPath env p libName),
                Event.registered libName (libFullPath env p libName)] } := by
  have hasc : Ascending (before ++ p :: later) := hsplit ▸ libPaths.ascending
  unfold Ascending at hasc
  rw [List.pairwise_append] at hasc
  refine ⟨fun q hq => hasc.2.2 q hq p (List.mem_cons_self _ _),
    fun q hq => (List.pairwise_cons.1 hasc.2.1).1 q hq, ?_⟩
  unfold OrcJit.loadLib
  rw [hsplit, loadLibFrom_first env jit libName before p later hbefore hp, if_pos hload]

/-- Witness for `loadLib_first_in_set_order`: paths supplied as `/b`, `/a`, `/p`, library
`z` whose file lies only under `/b`; the set visits `/a` first, finds nothing, then `/b`. -/
theorem loadLib_first_in_set_order_witness :
    (∀ q ∈ ["/a"], strLess q "/b" = true) ∧ (∀ q ∈ ["/p"], strLess "/b" q = true) ∧
    OrcJit.Create.loadLib sampleEnv "z" (StdSet.ofList ["/b", "/a", "/p"]) =
      Outcome.returned
        { found := true
          jit := { OrcJit.Create with generators :=
            OrcJit.Create.generators ++ [Generator.library (libFullPath sampleEnv "/b" "z")] }
          events := ["/a"].map (fun q => Event.probe "z" (libFullPath sampleEnv q "z"))
            ++ [Event.probe "z" (libFullPath sampleEnv "/b" "z"),
                Event.registered "z" (libFullPath sampleEnv "/b" "z")] } :=
  loadLib_first_in_set_order sampleEnv OrcJit.Create "z" (StdSet.ofList ["/b", "/a", "/p"])
    ["/a"] "/b" ["/p"] (by decide) (by decide) (by decide) (by decide)

/-! ## Failed compilation and the shared namespace -/

/-- C5, as stated, fails at an explicit input: the source does not compile and `translate`
returns the null handle with a non-empty error, but the call has registered the required
library `m` before compiling, so `getFunction` resolves `sin` after the call and did not
before it. Also, with required library `bad`, whose file exists but does not load, the
same source makes `translate` not return at all. -/
theorem translate_compile_failure_namespace_example :
    LLVMJIT.new.translate sampleEnv "this is not C" StdSet.empty (StdSet.ofList ["/p"])
      (StdSet.ofList ["m"]) "" false =
      Outcome.returned
        { handle := 0, error := "failed to execute translation action "
          self := sampleLibraryOnly
          events := [Event.probe "m" "/p/libm.so", Event.registered "m" "/p/libm.so"] } ∧
    LLVMJIT.new.getFunction sampleEnv 0 "sin" "" = Outcome.aborted ∧
    sampleLibraryOnly.getFunction sampleEnv 0 "sin" "" = Outcome.returned (201, "") ∧
    LLVMJIT.new.translate sampleEnv "this is not C" StdSet.empty (StdSet.ofList ["/p"])
      (StdSet.ofList ["bad"]) "" false = Outcome.aborted := by
  decide

/-- C5, amended: for a request whose source fails front-end compilation, every result
`translate` returns has the null handle and a non-empty error, leaves the symbols defined by
compiled code unchanged and only appends the generators of the libraries its library loop
registered before compiling, so every name that resolved before still resolves to the same
address; when every required library is already in `loadedLibs_` the call returns and leaves
the object unchanged, so the set of resolvable names is the same; and the call returns
exactly when every file its library loop hands to `Load` loads. -/
theorem translate_compile_failure (env : Env) (self : LLVMJIT) (code : String)
    (headerpaths librarypaths libraries : StdSet) (error : String) (debug : Bool)
    (haction : env.ExecuteAction code (translateArgs env headerpaths debug) = none) :
    (∀ r, self.translate env code headerpaths librarypaths libraries error debug
        = Outcome.returned r →
      r.handle = 0 ∧ r.error ≠ "" ∧
      r.self.orcJit_.symbols = self.orcJit_.symbols ∧
      r.self.orcJit_.generators = self.orcJit_.generators ++ registeredGenerators r.events ∧
      ∀ name a, self.orcJit_.lookup env name = some a →
        r.self.orcJit_.lookup env name = some a) ∧
    ((∀ lib ∈ libraries.elems, lib ∈ self.loadedLibs_) →
      ∃ msg, msg ≠ "" ∧
        self.translate env code headerpaths librarypaths libraries error debug =
          Outcome.returned { handle := 0, error := msg, self := self, events := [] }) ∧
    (LoaderFilesLoad env self.loadedLibs_ librarypaths.elems libraries.elems ↔
      ∃ r, self.translate env code headerpaths librarypaths libraries error debug
        = Outcome.returned r) := by
  refine ⟨?_, ?_, ?_, ?_⟩
  · intro r hr
    obtain ⟨l, hl, hev, _, _, hcase⟩ :=
      translate_returned env self code headerpaths librarypaths libraries error debug r hr
    obtain ⟨hsym, hgen, _⟩ := loadLibraries_returned env librarypaths libraries.elems self l hl
    rcases hcase with ⟨h0, hne, hself, _⟩ | ⟨_, _, _, _, M, hx, _⟩
    · rw [hself, hev]
      refine ⟨h0, hne, hsym, hgen, ?_⟩
      intro name a ha
      have hjit : l.self.orcJit_ = { self.orcJit_ with
          generators := self.orcJit_.generators ++ registeredGenerators l.events } := by
        cases hj : l.self.orcJit_
        simp only [hj] at hsym hgen
        simp [hsym, hgen]
      rw [hjit]
      exact lookup_append_some env self.orcJit_ _ name a ha
    · rw [hx] at haction; cases haction
  · intro hall
    have hl := loadLibraries_all_loaded env librarypaths self libraries.elems hall
    obtain ⟨msg, hmsg, _, htr⟩ := translate_of_loop_returned env self code headerpaths
      librarypaths libraries error debug _ hl (Or.inr (Or.inr haction))
    exact ⟨msg, hmsg, htr⟩
  · intro hload
    obtain ⟨l, hl⟩ :=
      (loadLibraries_returns_iff env librarypaths libraries.elems self).2 hload
    obtain ⟨msg, _, _, htr⟩ := translate_of_loop_returned env self code headerpaths
      librarypaths libraries error debug l hl (Or.inr (Or.inr haction))
    exact ⟨_, htr⟩
  · rintro ⟨r, hr⟩
    obtain ⟨l, hl, _⟩ :=
      translate_returned env self code headerpaths librarypaths libraries error debug r hr
    exact (loadLibraries_returns_iff env librarypaths libraries.elems self).1 ⟨l, hl⟩

/-- Witness for `translate_compile_failure`: a source that does not compile. On the object
`sampleLoaded` with the already loaded library `m` required, the call returns and leaves the
object unchanged; on a fresh service with `m` required and search paths `/a` and `/p`, where
`/p/libm.so` exists and does not load, the loader stops at `/a/libm.so`, which loads, so
every file handed to `Load` loads. -/
theorem translate_compile_failure_witness :
    shadowEnv.ExecuteAction "this is not C" (translateArgs shadowEnv StdSet.empty false) = none ∧
    (∃ msg, msg ≠ "" ∧
      sampleLoaded.translate shadowEnv "this is not C" StdSet.empty (StdSet.ofList ["/p"])
        (StdSet.ofList ["m"]) "" false =
        Outcome.returned { handle := 0, error := msg, self := sampleLoaded, events := [] }) ∧
    (shadowEnv.fsExists "/p/libm.so" = true ∧ shadowEnv.Load "/p/libm.so" = false) ∧
    LoaderFilesLoad shadowEnv LLVMJIT.new.loadedLibs_ (StdSet.ofList ["/p", "/a"]).elems
      (StdSet.ofList ["m"]).elems :=
  ⟨by decide,
    (translate_compile_failure shadowEnv sampleLoaded "this is not C" StdSet.empty
      (StdSet.ofList ["/p"]) (StdSet.ofList ["m"]) "" false (by decide)).2.1 (by decide),
    by decide,
    (translate_compile_failure shadowEnv LLVMJIT.new "this is not C" StdSet.empty
      (StdSet.ofList ["/p", "/a"]) (StdSet.ofList ["m"]) "" false (by decide)).2.2.2
      ⟨{ handle := 0, error := "failed to execute translation action ", self := sampleLoadedA
         events := [Event.probe "m" "/a/libm.so", Event.registered "m" "/a/libm.so"] },
        by decide⟩⟩

/-! ## The argument vector -/

/-- C4, as stated, fails at an explicit input: with header paths supplied as `/b` then `/a`,
the entry `-isystem/usr/include` stands before both caller entries, and `-isystem/a` stands
before `-isystem/b`. -/
theorem translateArgs_order_example :
    translateArgs sampleEnv (StdSet.ofList ["/b", "/a"]) false =
      ["-O3", "-std=c99", "-isystem/jit/clang_stdlib", "-isystem/usr/include",
        "-isystem/a", "-isystem/b",
        "/etiss_llvm_clang_memory_mapped_file.c", "-isystem/usr/include/x86_64-linux-gnu"] ∧
    List.indexOf "-isystem/usr/include"
        (translateArgs sampleEnv (StdSet.ofList ["/b", "/a"]) false) <
      List.indexOf "-isystem/a" (translateArgs sampleEnv (StdSet.ofList ["/b", "/a"]) false) ∧
    List.indexOf "-isystem/a" (translateArgs sampleEnv (StdSet.ofList ["/b", "/a"]) false) <
      List.indexOf "-isystem/b" (translateArgs sampleEnv (StdSet.ofList ["/b", "/a"]) false) := by
  decide

/-- C4, amended: the argument vector holds `-isystem/usr/include` at position 3, then each
header path of the set as its own `-isystem` entry, in the ascending string order in which
`std::set` is iterated, at positions 4 and up, then the input file, and last
`-isystem/usr/include/x86_64-linux-gnu`; so every caller entry stands after
`-isystem/usr/include` and before `-isystem/usr/include/x86_64-linux-gnu`. -/
theorem translateArgs_layout (env : Env) (headerpaths : StdSet) (debug : Bool) :
    Ascending headerpaths.elems ∧
    (translateArgs env headerpaths debug).length = headerpaths.elems.length + 6 ∧
    (translateArgs env headerpaths debug)[3]? = some "-isystem/usr/include" ∧
    (∀ i, i < headerpaths.elems.length →
      (translateArgs env headerpaths debug)[4 + i]? =
        (headerpaths.elems[i]?).map (fun headerPath => "-isystem" ++ headerPath)) ∧
    (translateArgs env headerpaths debug)[headerpaths.elems.length + 4]? =
      some "/etiss_llvm_clang_memory_mapped_file.c" ∧
    (translateArgs env headerpaths debug)[headerpaths.elems.length + 5]? =
      some "-isystem/usr/include/x86_64-linux-gnu" := by
  refine ⟨headerpaths.ascending, ?_, ?_, ?_, ?_, ?_⟩
  · simp [translateArgs]
  · simp [translateArgs]
  · intro i hi
    simp only [translateArgs, List.append_assoc, List.cons_append, List.nil_append]
    rw [show 4 + i = i + 1 + 1 + 1 + 1 by omega]
    simp only [List.getElem?_cons_succ]
    rw [List.getElem?_append_left (by simpa using hi), List.getElem?_map]
  · simp only [translateArgs, List.append_assoc, List.cons_append, List.nil_append]
    simp only [List.getElem?_cons_succ]
    rw [List.getElem?_append_right (by simp)]
    simp
  · simp only [translateArgs, List.append_assoc, List.cons_append, List.nil_append]
    rw [show headerpaths.elems.length + 5 = headerpaths.elems.length + 1 + 1 + 1 + 1 + 1 by omega]
    simp only [List.getElem?_cons_succ]
    rw [List.getElem?_append_right (by simp)]
    simp

/-! ## Invariants of a service instance -/

/-- What a returning `translate` call does to the generators and to `loadedLibs_`. -/
theorem translate_loader_effect (env : Env) (self : LLVMJIT) (code : String)
    (headerpaths librarypaths libraries : StdSet) (error : String) (debug : Bool)
    (r : TranslateResult)
    (h : self.translate env code headerpaths librarypaths libraries error debug
      = Outcome.returned r) :
    r.self.orcJit_.generators = self.orcJit_.generators ++ registeredGenerators r.events ∧
    (∀ x, x ∈ r.self.loadedLibs_ ↔ x ∈ self.loadedLibs_ ∨ x ∈ registeredNames r.events) ∧
    (registeredNames r.events).Nodup ∧
    (∀ e ∈ r.events, e.libName ∈ libraries.elems ∧ e.libName ∉ self.loadedLibs_) := by
  obtain ⟨l, hl, hev, hlibs, hgens, _⟩ :=
    translate_returned env self code headerpaths librarypaths libraries error debug r h
  obtain ⟨_, h2, h3, h4, h5⟩ := loadLibraries_returned env librarypaths libraries.elems self l hl
  rw [hev, hlibs, hgens]
  exact ⟨h2, h3, h4, h5⟩

/-- On every reachable object the generator chain is the process generator followed by the
library generators in the order of their registration, `loadedLibs_` holds exactly the
registered names, and no name was registered twice. -/
theorem reachable_invariant (self : LLVMJIT) (log : List Event) (h : Reachable self log) :
    self.orcJit_.generators = Generator.currentProcess :: registeredGenerators log ∧
    (∀ x, x ∈ self.loadedLibs_ ↔ x ∈ registeredNames log) ∧
    (registeredNames log).Nodup := by
  induction h with
  | new => simp [LLVMJIT.new, OrcJit.Create, addGenerator, registeredGenerators, registeredNames]
  | translate env self log code hp lp libs error debug r _ htr ih =>
    obtain ⟨ihg, ihl, ihn⟩ := ih
    obtain ⟨hg, hl, hn, he⟩ :=
      translate_loader_effect env self code hp lp libs error debug r htr
    refine ⟨?_, ?_, ?_⟩
    · rw [hg, ihg, registeredGenerators_append, List.cons_append]
    · intro x
      rw [hl, ihl, registeredNames_append, List.mem_append]
    · rw [registeredNames_append]
      refine List.nodup_append.2 ⟨ihn, hn, ?_⟩
      intro x hx1 hx2
      obtain ⟨e, hein, hname⟩ := registeredNames_libName hx2
      exact (he e hein).2 (by rw [hname]; exact (ihl x).2 hx1)

/-! ## Search order of `lookup` -/

/-- C3, as stated, fails at an explicit input: after `translate` has registered library `m`
from `/p/libm.so`, the name `f`, which no compiled code defines, is exported both by that
library (at 200) and by the process (at 100), and `getFunction` returns the address of the
process, 100, not the address of the library. -/
theorem lookup_process_first_example :
    LLVMJIT.new.translate sampleEnv "int add(void);" StdSet.empty (StdSet.ofList ["/p"])
      (StdSet.ofList ["m"]) "" false =
      Outcome.returned
        { handle := 1, error := "", self := sampleLoaded
          events := [Event.probe "m" "/p/libm.so", Event.registered "m" "/p/libm.so"] } ∧
    sampleLoaded.orcJit_.symbols.lookup (sampleEnv.Mangle "f") = none ∧
    sampleEnv.tryToGenerate (Generator.library "/p/libm.so") (sampleEnv.Mangle "f") = some 200 ∧
    sampleEnv.tryToGenerate Generator.currentProcess (sampleEnv.Mangle "f") = some 100 ∧
    sampleLoaded.getFunction sampleEnv 1 "f" "" = Outcome.returned (100, "") := by
  decide

/-- C3, amended: on every reachable service object and for every name that compiled code
does not define, `lookup` (and so `getFunction`) consults the generators in the order they
were added: first the generator for the running process, which the constructor adds, and
only after it the libraries registered through `loadLib`, in registration order. So a name
the process exports resolves to the address of the process, and a name the process does not
export resolves to the address of the first registered library that exports it. -/
theorem lookup_generator_order (env : Env) (self : LLVMJIT) (log : List Event)
    (hreach : Reachable self log) (name : String)
    (hsym : self.orcJit_.symbols.lookup (env.Mangle name) = none) :
    self.orcJit_.generators = Generator.currentProcess :: registeredGenerators log ∧
    (∀ a, env.tryToGenerate Generator.currentProcess (env.Mangle name) = some a →
      self.orcJit_.lookup env name = some a ∧
      ∀ handle error, self.getFunction env handle name error = Outcome.returned (a, error)) ∧
    (env.tryToGenerate Generator.currentProcess (env.Mangle name) = none →
      ∀ before g later a, registeredGenerators log = before ++ g :: later →
        (∀ g2 ∈ before, env.tryToGenerate g2 (env.Mangle name) = none) →
        env.tryToGenerate g (env.Mangle name) = some a →
        self.orcJit_.lookup env name = some a ∧
        ∀ handle error, self.getFunction env handle name error = Outcome.returned (a, error)) := by
  obtain ⟨hgen, _, _⟩ := reachable_invariant self log hreach
  refine ⟨hgen, ?_, ?_⟩
  · intro a ha
    have hlook : self.orcJit_.lookup env name = some a := by
      simp [OrcJit.lookup, hsym, hgen, searchGenerators, ha]
    exact ⟨hlook, fun handle error => by simp [LLVMJIT.getFunction, hlook]⟩
  · intro hproc before g later a hsplit hbefore hg
    have hlook : self.orcJit_.lookup env name = some a := by
      simp only [OrcJit.lookup, hsym, hgen, searchGenerators, hproc, hsplit]
      exact searchGenerators_first env _ before g later a hbefore hg
    exact ⟨hlook, fun handle error => by simp [LLVMJIT.getFunction, hlook]⟩

/-- Witness for `lookup_generator_order`: the object reached by one `translate` call that
registers library `m`, and the name `f`. -/
theorem lookup_generator_order_witness :
    sampleLoaded.orcJit_.generators = Generator.currentProcess ::
      registeredGenerators
        ([] ++ [Event.probe "m" "/p/libm.so", Event.registered "m" "/p/libm.so"]) ∧
    sampleLoaded.orcJit_.lookup sampleEnv "f" = some 100 :=
  have h := lookup_generator_order sampleEnv sampleLoaded
    ([] ++ [Event.probe "m" "/p/libm.so", Event.registered "m" "/p/libm.so"])
    (Reachable.translate sampleEnv LLVMJIT.new [] "int add(void);" StdSet.empty
      (StdSet.ofList ["/p"]) (StdSet.ofList ["m"]) "" false
      { handle := 1, error := "", self := sampleLoaded
        events := [Event.probe "m" "/p/libm.so", Event.registered "m" "/p/libm.so"] }
      Reachable.new (by decide))
    "f" (by decide)
  ⟨h.1, (h.2.1 100 (by decide)).1⟩

/-! ## Each library is registered once -/

/-- C8: on every object a sequence of returning `translate` calls can reach, no library name
has been registered twice, `loadedLibs_` holds exactly the names registered so far, and the
number of library generators on the session equals the size of `loadedLibs_`. Every further
returning `translate` call, whatever its arguments, keeps all names in `loadedLibs_`, adds
a name only together with its registration by `loadLib`, and performs no file-existence
probe and no generator registration for a name that was already in `loadedLibs_`. -/
theorem loadedLibs_registered_once (self : LLVMJIT) (log : List Event)
    (hreach : Reachable self log) :
    (registeredNames log).Nodup ∧
    (∀ x, x ∈ self.loadedLibs_ ↔ x ∈ registeredNames log) ∧
    (self.orcJit_.generators.filter Generator.isLibrary).length = self.loadedLibs_.card ∧
    ∀ (env : Env) (code : String) (headerpaths librarypaths libraries : StdSet)
      (error : String) (debug : Bool) (r : TranslateResult),
      self.translate env code headerpaths librarypaths libraries error debug
        = Outcome.returned r →
      self.loadedLibs_ ⊆ r.self.loadedLibs_ ∧
      (∀ x ∈ r.self.loadedLibs_, x ∉ self.loadedLibs_ →
        ∃ fullPath, Event.registered x fullPath ∈ r.events) ∧
      (∀ e ∈ r.events, e.libName ∉ self.loadedLibs_) ∧
      (r.self.orcJit_.generators.filter Generator.isLibrary).length = r.self.loadedLibs_.card := by
  have count : ∀ (s : LLVMJIT) (lg : List Event), Reachable s lg →
      (s.orcJit_.generators.filter Generator.isLibrary).length = s.loadedLibs_.card := by
    intro s lg hs
    obtain ⟨hg, hl, hn⟩ := reachable_invariant s lg hs
    have hset : s.loadedLibs_ = (registeredNames lg).toFinset := by
      ext x
      rw [hl, List.mem_toFinset]
    rw [hset, List.toFinset_card_of_nodup hn, hg, List.filter_cons]
    simp only [Generator.isLibrary, Bool.false_eq_true, if_false]
    rw [registeredGenerators_isLibrary, registeredGenerators_length]
  obtain ⟨_, hl, hn⟩ := reachable_invariant self log hreach
  refine ⟨hn, hl, count self log hreach, ?_⟩
  intro env code hp lp libs error debug r htr
  obtain ⟨_, hlibs, _, hev⟩ :=
    translate_loader_effect env self code hp lp libs error debug r htr
  refine ⟨?_, ?_, ?_, ?_⟩
  · intro x hx
    exact (hlibs x).2 (Or.inl hx)
  · intro x hx hnot
    rcases (hlibs x).1 hx with h | h
    · exact absurd h hnot
    · exact mem_registeredNames.1 h
  · intro e he
    exact (hev e he).2
  · exact count r.self (log ++ r.events)
      (Reachable.translate env self log code hp lp libs error debug r hreach htr)

/-- Witness for `loadedLibs_registered_once`: the object reached by one `translate` call
that registers library `m`; it has one library generator and one loaded name. -/
theorem loadedLibs_registered_once_witness :
    (sampleLoaded.orcJit_.generators.filter Generator.isLibrary).length
      = sampleLoaded.loadedLibs_.card ∧
    sampleLoaded.loadedLibs_.card = 1 :=
  ⟨(loadedLibs_registered_once sampleLoaded
      ([] ++ [Event.probe "m" "/p/libm.so", Event.registered "m" "/p/libm.so"])
      (Reachable.translate sampleEnv LLVMJIT.new [] "int add(void);" StdSet.empty
        (StdSet.ofList ["/p"]) (StdSet.ofList ["m"]) "" false
        { handle := 1, error := "", self := sampleLoaded
          events := [Event.probe "m" "/p/libm.so", Event.registered "m" "/p/libm.so"] }
        Reachable.new (by decide))).2.2.1,
    by decide⟩

end etiss
